import Mathlib

/-!
Verification of the CoNLL-U dataset loader of this repository
(source file: flair/datasets/conllu.py).

The development shallowly embeds the parsing and indexing core:

* the schema resolution and validation logic of `CoNLLUDataset.__init__`,
* the byte-offset scanner used in lazy mode (`in_memory=False`),
* the element access `CoNLLUDataset.__getitem__` for both access modes,
* the sentence assembler `CoNLLUDataset.token_list_to_sentence`,
* the metadata parser `parse_relation_tuple_list`.

A file is modelled as the list of the lines `readline` would return: each
entry carries its terminating newline character (the last one possibly not).
Stream positions are character counts, which agree with byte counts on the
ASCII inputs used throughout; the scanner and the seek operation use one and
the same length measure, exactly as the source uses `file.tell` and
`file.seek` on one and the same file.

The record parser invoked by the source (`conllu.parse_incr`,
`conllu.parser.parse_conllu_plus_fields` and the default field and metadata
parser tables of the `conllu` package) is not part of this repository; those
definitions are modelled from the spec and are marked as such in their doc
comments.  All string manipulation is implemented over `List Char` by
structural recursion so every definition evaluates inside the kernel.
-/

deriving instance DecidableEq for Except

namespace Conllu

/-- ASCII whitespace as stripped by Python `str.strip` (the inputs considered
here contain no further Unicode whitespace). -/
def isWs (c : Char) : Bool := c = ' ' || c = '\t' || c = '\n' || c = '\r'

/-- Strip leading and trailing whitespace from a character list. -/
def trimChars (cs : List Char) : List Char :=
  ((cs.dropWhile isWs).reverse.dropWhile isWs).reverse

/-- Embedding of Python `str.strip`. -/
def strTrim (s : String) : String := ⟨trimChars s.data⟩

/-- Length of a string in characters; the stream-position measure. -/
def strLen (s : String) : Nat := s.data.length

/-- A line is blank when it strips to the empty string, mirroring
`line.strip() == ""` in the scanner and the blank-line block delimiter of the
record parser. -/
def isBlank (l : String) : Bool := trimChars l.data = []

def splitCharAux (sep : Char) : List Char → List Char → List String
  | [], acc => [⟨acc.reverse⟩]
  | c :: cs, acc =>
      if c = sep then ⟨acc.reverse⟩ :: splitCharAux sep cs []
      else splitCharAux sep cs (c :: acc)

/-- Embedding of Python `str.split` with a one-character separator: splitting
the empty string yields `[""]`, and separators at the ends yield empty
fields, as in Python. -/
def splitChar (s : String) (sep : Char) : List String := splitCharAux sep s.data []

/-- Split at the first occurrence of `sep`, Python `str.split(sep, 1)`;
`none` when the separator does not occur. -/
def splitFirstChar : List Char → Char → Option (List Char × List Char)
  | [], _ => none
  | c :: cs, sep =>
      if c = sep then some ([], cs)
      else (splitFirstChar cs sep).map (fun p => (c :: p.1, p.2))

/-- Association-list lookup by string key (first match wins, as in a Python
dict built by successive insertion). -/
def alookup {α : Type} (k : String) : List (String × α) → Option α
  | [] => none
  | p :: ps => if p.1 = k then some p.2 else alookup k ps

/-- Digit-sequence tail of a Python integer literal: after the first digit,
groups of digits optionally separated by single underscores. -/
def pyDigitTail : List Char → Bool
  | [] => true
  | '_' :: [] => false
  | '_' :: d :: ds => d.isDigit && pyDigitTail ds
  | c :: cs => c.isDigit && pyDigitTail cs

/-- Nonempty digit sequence of a Python integer literal. -/
def pyDigitPart : List Char → Bool
  | [] => false
  | c :: cs => c.isDigit && pyDigitTail cs

/-- Optional single leading sign; returns (isNegative, remainder). -/
def parseSign : List Char → Bool × List Char
  | '-' :: cs => (true, cs)
  | '+' :: cs => (false, cs)
  | cs => (false, cs)

/-- Numeric value of a digit sequence, skipping grouping underscores. -/
def pyDigitsVal (cs : List Char) : Nat :=
  cs.foldl (fun acc c => if c = '_' then acc else acc * 10 + (c.toNat - 48)) 0

/-- Error raised while parsing one encoded relation tuple, mirroring the two
`ValueError`s the source can raise in `parse_relation_tuple_list`:

* `unpackMismatch expected got` — the tuple unpacking
  `head_start, head_end, tail_start, tail_end, label = relation.split(";")`
  failed; the Python error message carries only the two counts, never the
  raw value;
* `intParseFail raw` — an `int(...)` conversion failed; the Python error
  message carries the raw literal. -/
inductive RelParseErr where
  | unpackMismatch (expected got : Nat)
  | intParseFail (raw : String)
deriving DecidableEq, Repr

/-- The raw input fragment carried by the error, as present in the message of
the corresponding Python `ValueError`: the failed `int(...)` literal, or
nothing for a tuple-unpacking mismatch. -/
def errRawValue : RelParseErr → Option String
  | .unpackMismatch _ _ => none
  | .intParseFail raw => some raw

/-- Embedding of Python `int(s)` on strings: surrounding whitespace is
ignored, one optional sign, then a nonempty digit sequence with optional
single grouping underscores; anything else raises `ValueError` carrying the
original string. -/
def pyInt (s : String) : Except RelParseErr Int :=
  let p := parseSign (trimChars s.data)
  if pyDigitPart p.2 then
    .ok (if p.1 then -(pyDigitsVal p.2 : Int) else (pyDigitsVal p.2 : Int))
  else .error (.intParseFail s)

/-- One decoded relation annotation: 1-based inclusive token indices for the
head and tail spans plus the free-text label (source line 37). -/
structure RelTuple where
  head_start : Int
  head_end : Int
  tail_start : Int
  tail_end : Int
  label : String
deriving DecidableEq, Repr

/-- Effectful map over a list in the `Except` monad, stopping at the first
error — the evaluation order of a Python `for` loop (or of the list
comprehension in `__init__`) whose body can raise. -/
def exceptMapList {ε α β : Type} (f : α → Except ε β) : List α → Except ε (List β)
  | [] => .ok []
  | x :: xs =>
      match f x with
      | .error e => .error e
      | .ok y =>
          match exceptMapList f xs with
          | .error e => .error e
          | .ok ys => .ok (y :: ys)

/-- One iteration of the loop body of `parse_relation_tuple_list` (source
lines 35-37): split one encoded tuple on `";"`, unpack exactly five fields
(raising on a mismatch, before any conversion), then convert the four
indices with `int` from left to right. -/
def parseOneRelation (relation : String) : Except RelParseErr RelTuple :=
  match splitChar relation ';' with
  | [hs, he, ts, te, label] => do
      let a ← pyInt hs
      let b ← pyInt he
      let c ← pyInt ts
      let d ← pyInt te
      .ok { head_start := a, head_end := b, tail_start := c, tail_end := d, label := label }
  | parts => .error (.unpackMismatch 5 parts.length)

/-- Embedding of `parse_relation_tuple_list` (source lines 25-39) at the
separators the source installs in `DEFAULT_METADATA_PARSERS` (`list_sep="|"`,
`value_sep=";"`): `None` passes through, otherwise the value splits on `"|"`
into encoded tuples, each parsed by `parseOneRelation`, and the result is the
pair of the key and the tuple list. -/
def parse_relation_tuple_list (key : String) (value : Option String) :
    Except RelParseErr (Option (String × List RelTuple)) :=
  match value with
  | none => .ok none
  | some v =>
      match exceptMapList parseOneRelation (splitChar v '|') with
      | .error e => .error e
      | .ok ts => .ok (some (key, ts))

/-- A parsed field value of one token cell, as produced by the effective
default parser registry: absent or `"_"` cells become `null`, free-text
columns stay strings, and the `misc`/`feats` columns become key-value
mappings whose values are nullable strings. -/
inductive FieldVal where
  | null
  | str (s : String)
  | dict (ps : List (String × Option String))
deriving DecidableEq, Repr

/-- Python `str(...)` of a parsed field value, as applied by
`token_list_to_sentence` to token-annotation values: `str(None)` is the
string `"None"`.  Under the registry of this model a token-annotation value
is never a mapping (`__init__` overrides the parser of every configured
token-annotation field with the nullable-string parser, source lines
148-154), so the `dict` case is unreachable there and is rendered by its
Python class name. -/
def pyStr : FieldVal → String
  | .null => "None"
  | .str s => s
  | .dict _ => "OrderedDict"

/-- A sentence-level metadata value: a plain string for ordinary keys, or the
decoded tuple list for the `"relations"` key. -/
inductive MetaVal where
  | str (s : String)
  | rels (ts : List RelTuple)
deriving DecidableEq, Repr

/-- A Token Record: the mapping from column name to parsed value for one
token line. -/
abbrev TokenRec := List (String × FieldVal)

/-- A Sentence Record as handed to `token_list_to_sentence`: ordered token
records plus the metadata mapping (`conllu.TokenList`). -/
structure CTokenList where
  tokens : List TokenRec
  metadata : List (String × MetaVal)
deriving DecidableEq, Repr

/-- Modelled from the spec: the nullable-string field parser
(`conllu.parser.parse_nullable_value`, installed by `__init__` for every
token-annotation column) — an empty or `"_"` cell denotes the null value. -/
def parseNullableValue (s : String) : FieldVal :=
  if s = "" ∨ s = "_" then .null else .str s

/-- Modelled from the spec: one `key=value` member of a `misc`/`feats`
column (`conllu.parser.parse_dict_value` member handling) — the part splits
at its first `"="`; a part without `"="` maps the whole part to null, and the
value itself is parsed as a nullable string. -/
def parseDictPair (part : List Char) : String × Option String :=
  match splitFirstChar part '=' with
  | none => (⟨part⟩, none)
  | some p =>
      (⟨p.1⟩, match parseNullableValue ⟨p.2⟩ with
              | .str s => some s
              | _ => none)

/-- Modelled from the spec: the mapping-valued field parser used for the
`misc` and `feats` columns (`conllu.parser.parse_dict_value`) — `"_"` or an
empty cell is null, otherwise the cell splits on `"|"` into `key=value`
pairs. -/
def parseDictValue (s : String) : FieldVal :=
  if s = "" ∨ s = "_" then .null
  else .dict ((splitChar s '|').map (fun part => parseDictPair part.data))

/-- Modelled from the spec: the effective per-column cell parser of the
registry built in `__init__` (source lines 148-157, §4.2 of the spec): a
missing trailing cell is null; a cell of a configured token-annotation
column is parsed as a nullable string (this override takes precedence, as
the `dict(DEFAULT, **overrides)` construction does); the `misc` and `feats`
columns are parsed as nullable mappings; every other column keeps its raw
cell text (the typed conversions of columns such as `id` and `head` are not
observed by the sentence assembler and are not modelled further). -/
def parseCell (taf : List String) (col : String) (cell : Option String) : FieldVal :=
  match cell with
  | none => .null
  | some s =>
      if taf.any (fun f => f = col) then parseNullableValue s
      else if col = "misc" ∨ col = "feats" then parseDictValue s
      else .str s

/-- Modelled from the spec: parsing of one token line (§4.3) — the stripped
line splits on tabs into cells, and cell `i` is parsed for column `i` of the
schema, missing trailing cells counting as null. -/
def parseTokenLine (fields taf : List String) (line : String) : TokenRec :=
  (fields.enum).map (fun p => (p.2, parseCell taf p.2 (splitChar (strTrim line) '\t')[p.1]?))

/-- A comment line is one whose stripped form starts with `#` (§6). -/
def isCommentLine (l : String) : Bool :=
  match trimChars l.data with
  | '#' :: _ => true
  | _ => false

/-- Modelled from the spec: metadata parsing of one comment line (§6,
`key = value` after the leading `#`), dispatched through the metadata parser
map: the `"relations"` key runs `parse_relation_tuple_list` (installed by
`DEFAULT_METADATA_PARSERS`, source lines 17-22) and can fail; every other
key keeps its raw value string. -/
def parseCommentLine (line : String) : Except RelParseErr (List (String × MetaVal)) :=
  let body := trimChars ((trimChars line.data).drop 1)
  match splitFirstChar body '=' with
  | none => .ok []
  | some p =>
      let key : String := ⟨trimChars p.1⟩
      let valS : String := ⟨trimChars p.2⟩
      if key = "relations" then
        match parse_relation_tuple_list key (some valS) with
        | .error e => .error e
        | .ok none => .ok []
        | .ok (some kts) => .ok [(kts.1, .rels kts.2)]
      else .ok [(key, .str valS)]

/-- Modelled from the spec: parsing of one sentence block (§4.3) — the
comment lines of the block are parsed as metadata in order, the remaining
lines as token records; a metadata parse failure aborts the block. -/
def parseBlock (fields taf : List String) (b : List String) : Except RelParseErr CTokenList :=
  match exceptMapList parseCommentLine (b.filter isCommentLine) with
  | .error e => .error e
  | .ok metaLists =>
      .ok { tokens := (b.filter (fun l => !isCommentLine l)).map (parseTokenLine fields taf)
          , metadata := metaLists.flatten }

/-- Segments of a line list delimited by blank lines, possibly empty; a file
with no blank line is one segment. -/
def segmentsR : List String → List (List String)
  | [] => [[]]
  | l :: ls =>
      if isBlank l then [] :: segmentsR ls
      else
        match segmentsR ls with
        | [] => [[l]]
        | s :: ss => (l :: s) :: ss

/-- Modelled from the spec: the sentence blocks of a file (§4.3 and the
glossary) — the maximal runs of non-blank lines; blank-only stretches yield
no block, so this is what `conllu.parse_incr` iterates over. -/
def blocksOf (ls : List String) : List (List String) :=
  (segmentsR ls).filter (fun b => !b.isEmpty)

/-- Python slice-bound normalization for a sequence of length `n` and a
non-negative step: negative bounds count from the end and both ends clamp
into `[0, n]`. -/
def pySliceIdx (n : Nat) (i : Int) : Nat :=
  if i < 0 then (i + n).toNat else min i.toNat n

/-- Embedding of the Python slice `xs[a:b]`. -/
def pySlice {α : Type} (xs : List α) (a b : Int) : List α :=
  (xs.take (pySliceIdx xs.length b)).drop (pySliceIdx xs.length a)

/-- The external token object as far as the assembler populates it: surface
text, the per-token labels added via `add_label` in order, and the
trailing-whitespace flag (default true). -/
structure SToken where
  text : String
  labels : List (String × String)
  whitespace_after : Bool
deriving DecidableEq, Repr

/-- One relation label attached via `add_complex_label("relation", ...)`:
the label text and the head and tail spans as token lists. -/
structure RelationLab where
  value : String
  head : List SToken
  tail : List SToken
deriving DecidableEq, Repr

/-- The external sentence object as far as the assembler populates it:
tokens in order, plain sentence-level labels, and relation labels. -/
structure PSentence where
  tokens : List SToken
  labels : List (String × String)
  relationLabels : List RelationLab
deriving DecidableEq, Repr

/-- Token assembly, the per-token part of `token_list_to_sentence` (source
lines 219-231): the token text is the `form` value; each configured
token-annotation field contributes a label with the stringified value; the
whitespace flag turns false exactly when a present, non-null `misc` mapping
yields `"No"` for `"SpaceAfter"` via `dict.get` (an absent key and a null
value both yield `None` there, leaving the default).  A string-valued `misc`
cannot arise under the default registry (its parser is mapping-valued); the
source would raise an `AttributeError` on one, and the theorems below
exclude that case by hypothesis. -/
def assembleToken (taf : List String) (rec : TokenRec) : SToken :=
  { text := pyStr ((alookup "form" rec).getD .null)
  , labels := taf.map (fun f => (f, pyStr ((alookup f rec).getD .null)))
  , whitespace_after :=
      match alookup "misc" rec with
      | some (.dict ps) => if (alookup "SpaceAfter" ps).getD none = some "No" then false else true
      | _ => true }

/-- Embedding of `CoNLLUDataset.token_list_to_sentence` (source lines
213-245): assemble every token record in order; attach a `sentence_id`
label when that metadata key is present; for each decoded relation tuple
build the head span from the token slice `[head_start-1 : head_end]` and the
tail span from `[tail_start-1 : tail_end]` and attach a relation label. -/
def token_list_to_sentence (taf : List String) (tl : CTokenList) : PSentence :=
  let toks := tl.tokens.map (assembleToken taf)
  { tokens := toks
  , labels :=
      match alookup "sentence_id" tl.metadata with
      | some (.str v) => [("sentence_id", v)]
      | _ => []
  , relationLabels :=
      match alookup "relations" tl.metadata with
      | some (.rels rs) =>
          rs.map (fun r =>
            { value := r.label
            , head := pySlice toks (r.head_start - 1) r.head_end
            , tail := pySlice toks (r.tail_start - 1) r.tail_end })
      | _ => [] }

/-- The ten-column default schema `DEFAULT_FIELDS` (source line 13). -/
def DEFAULT_FIELDS : List String :=
  ["id", "form", "lemma", "upos", "xpos", "feats", "head", "deprel", "deps", "misc"]

/-- The default Token-Annotation Field Set `DEFAULT_TOKEN_ANNOTATION_FIELDS`
(source line 15). -/
def DEFAULT_TOKEN_ANNOTATION_FIELDS : List String := ["lemma", "upos", "xpos"]

/-- Python `x or d` on an optional list: `None` and the empty list are both
falsy and fall back to the default (the `fields or DEFAULT_FIELDS` and
`token_annotation_fields or DEFAULT_TOKEN_ANNOTATION_FIELDS` idiom of source
lines 140-141). -/
def pyOrList (x : Option (List String)) (d : List String) : List String :=
  match x with
  | none => d
  | some [] => d
  | some l => l

/-- Modelled from the spec: the in-file schema declaration detector
(`conllu.parser.parse_conllu_plus_fields`, invoked at source line 138; §4.1
and §6 of the spec) — when the file begins with a structured comment line
`# global.columns = NAME NAME ...`, the listed column names are returned;
otherwise nothing. -/
def parse_conllu_plus_fields (lines : List String) : Option (List String) :=
  match lines with
  | [] => none
  | l :: _ =>
      match trimChars l.data with
      | '#' :: rest =>
          match splitFirstChar (trimChars rest) '=' with
          | none => none
          | some p =>
              if (⟨trimChars p.1⟩ : String) = "global.columns" ∧ trimChars p.2 ≠ [] then
                some (splitChar ⟨trimChars p.2⟩ ' ')
              else none
      | _ => none

/-- Schema resolution of `__init__` (source lines 136-140): the file is
consulted only when the caller supplied no schema (`if fields is None`), and
the result of `fields or DEFAULT_FIELDS` is the active schema. -/
def resolveFields (callerFields : Option (List String)) (lines : List String) : List String :=
  let fields :=
    match callerFields with
    | none => parse_conllu_plus_fields lines
    | some fs => some fs
  pyOrList fields DEFAULT_FIELDS

/-- `set(taf).issubset(fields)` of the validation at source line 144. -/
def subsetB (xs ys : List String) : Bool := xs.all (fun x => ys.any (fun y => y = x))

/-- The offset scanner of lazy mode (source lines 164-177), one step per
line read by `readline`: `pos` is the Python `position` variable, `tell` the
stream position after the lines consumed so far.  A line that strips to the
empty string appends `position` and then sets `position = file.tell()`;
after the loop one final `position` is appended unconditionally. -/
def scanIndicesAux : List String → Nat → Nat → List Nat
  | [], pos, _ => [pos]
  | l :: ls, pos, tell =>
      if isBlank l then pos :: scanIndicesAux ls (tell + strLen l) (tell + strLen l)
      else scanIndicesAux ls pos (tell + strLen l)

/-- The recorded offset list `self.indices` of a lazy dataset. -/
def scanIndices (lines : List String) : List Nat := scanIndicesAux lines 0 0

/-- Embedding of `file.seek(off)` followed by line reads: the remaining line
list from character position `off` (splitting a line when the position falls
inside it; the offsets the source seeks to always sit on line boundaries). -/
def seekLines : List String → Nat → List String
  | ls, 0 => ls
  | [], _ + 1 => []
  | l :: ls, off + 1 =>
      if off + 1 < strLen l then (⟨l.data.drop (off + 1)⟩ : String) :: ls
      else seekLines ls (off + 1 - strLen l)

/-- The parsed sentence list of an in-memory dataset (source lines 180-190):
every block of the file is parsed in order — the first parse failure aborts
the whole construction — and assembled by `token_list_to_sentence`. -/
def parseSentences (fields taf : List String) (lines : List String) :
    Except RelParseErr (List PSentence) :=
  match exceptMapList (parseBlock fields taf) (blocksOf lines) with
  | .error e => .error e
  | .ok tls => .ok (tls.map (token_list_to_sentence taf))

/-- A constructed `CoNLLUDataset`: the resolved schema, the effective
token-annotation fields, the access mode, and the mode's payload
(`self.sentences` for in-memory, `self.indices` for lazy) together with
`self.total_sentence_count`. -/
structure CoNLLUDataset where
  fields : List String
  token_annotation_fields : List String
  in_memory : Bool
  sentences : List PSentence
  indices : List Nat
  total_sentence_count : Nat
deriving DecidableEq, Repr

/-- Construction-time failure of `CoNLLUDataset.__init__`: the configuration
`ValueError` of source lines 144-146 (carrying the two offending lists), or
a parse error raised while materializing the sentences in-memory. -/
inductive InitErr where
  | config (taf fields : List String)
  | parse (e : RelParseErr)
deriving DecidableEq, Repr

/-- Embedding of `CoNLLUDataset.__init__` (source lines 112-190) over the
file's line list: resolve the schema (lines 136-140), resolve the
token-annotation fields (line 141), validate the subset relation before any
parsing (lines 143-146), then either record the blank-line offsets (lazy,
lines 164-177) or parse and assemble every sentence (in-memory, lines
180-190). -/
def datasetInit (lines : List String) (in_memory : Bool)
    (callerFields callerTaf : Option (List String)) : Except InitErr CoNLLUDataset :=
  let fields := resolveFields callerFields lines
  let taf := pyOrList callerTaf DEFAULT_TOKEN_ANNOTATION_FIELDS
  if subsetB taf fields then
    if in_memory then
      match parseSentences fields taf lines with
      | .error e => .error (.parse e)
      | .ok sents =>
          .ok { fields := fields, token_annotation_fields := taf, in_memory := true
              , sentences := sents, indices := [], total_sentence_count := sents.length }
    else
      .ok { fields := fields, token_annotation_fields := taf, in_memory := false
          , sentences := [], indices := scanIndices lines
          , total_sentence_count := (scanIndices lines).length }
  else .error (.config taf fields)

/-- `len(dataset)` (source lines 195-196). -/
def datasetLen (ds : CoNLLUDataset) : Nat := ds.total_sentence_count

/-- Failure of one element access: an out-of-range list index (in-memory),
the `StopIteration` of `next` when no block follows the seek position
(lazy), or a parse error while re-parsing the block (lazy). -/
inductive GetErr where
  | indexError
  | stopIteration
  | parse (e : RelParseErr)
deriving DecidableEq, Repr

/-- Embedding of `CoNLLUDataset.__getitem__` (source lines 198-211): the
in-memory branch indexes the materialized sentence list; the lazy branch
re-opens the file, seeks to `self.indices[index]`, takes the first sentence
block the record parser yields from there and assembles it. -/
def pyGetitem (ds : CoNLLUDataset) (lines : List String) (index : Nat) :
    Except GetErr PSentence :=
  if ds.in_memory then
    match ds.sentences[index]? with
    | some s => .ok s
    | none => .error .indexError
  else
    match ds.indices[index]? with
    | none => .error .indexError
    | some off =>
        match blocksOf (seekLines lines off) with
        | [] => .error .stopIteration
        | b :: _ =>
            match parseBlock ds.fields ds.token_annotation_fields b with
            | .error e => .error (.parse e)
            | .ok tl => .ok (token_list_to_sentence ds.token_annotation_fields tl)

/-- Character count of a line list; the end-of-stream position of a file. -/
def cumLen (ls : List String) : Nat := (ls.map strLen).sum

/-- Canonical file builder for files in the documented input format (§6):
the given sentence blocks separated by exactly one blank line each. -/
def joinSep : List (List String) → List String
  | [] => []
  | [b] => b
  | b :: bs => b ++ "\n" :: joinSep bs

/-- Canonical file builder: blocks separated by single blank lines, with an
optional trailing blank line. -/
def mkFileLines (bs : List (List String)) (t : Bool) : List String :=
  joinSep bs ++ (if t then ["\n"] else [])

/-- A well-formed sentence block of the input format: nonempty, and every
line is non-blank. -/
def GoodBlock (b : List String) : Prop := b ≠ [] ∧ ∀ l ∈ b, trimChars l.data ≠ []

/-- A well-formed block list of the input format: at least one block, all
well-formed. -/
def GoodBlocks (bs : List (List String)) : Prop := bs ≠ [] ∧ ∀ b ∈ bs, GoodBlock b

instance (b : List String) : Decidable (GoodBlock b) := by
  unfold GoodBlock; infer_instance

instance (bs : List (List String)) : Decidable (GoodBlocks bs) := by
  unfold GoodBlocks GoodBlock; infer_instance

/-- Character count of the blocks of a file, separators excluded. -/
def blocksLen (bs : List (List String)) : Nat := (bs.map cumLen).sum

/-- Start position of block `i` in a canonical file: the characters of the
earlier blocks plus one separator character per earlier block. -/
def blockStartPos (bs : List (List String)) (i : Nat) : Nat := blocksLen (bs.take i) + i

/-- End-of-stream position of a canonical file with a trailing blank line. -/
def fileEndPos (bs : List (List String)) : Nat := blocksLen bs + bs.length

/-! ### Concrete inputs used by witnesses and counterexamples -/

/-- An assembled one-column token of an input file under the default schema
and default token-annotation fields: only the form column is populated, so
every default annotation label stringifies the null value. -/
def plainTok (s : String) : SToken :=
  { text := s
  , labels := [("lemma", "None"), ("upos", "None"), ("xpos", "None")]
  , whitespace_after := true }

/-- A one-token sentence of such a file. -/
def plainSent (s : String) : PSentence :=
  { tokens := [plainTok s], labels := [], relationLabels := [] }

/-- Two one-token blocks (token lines `1<TAB>a` and `2<TAB>b`). -/
def c1blocks : List (List String) := [["1\ta\n"], ["2\tb\n"]]

/-- The in-memory dataset over `mkFileLines c1blocks false`. -/
def c1dsm : CoNLLUDataset :=
  { fields := DEFAULT_FIELDS
  , token_annotation_fields := DEFAULT_TOKEN_ANNOTATION_FIELDS
  , in_memory := true
  , sentences := [plainSent "a", plainSent "b"]
  , indices := []
  , total_sentence_count := 2 }

/-- The lazy dataset over `mkFileLines c1blocks false`. -/
def c1dsl : CoNLLUDataset :=
  { fields := DEFAULT_FIELDS
  , token_annotation_fields := DEFAULT_TOKEN_ANNOTATION_FIELDS
  , in_memory := false
  , sentences := []
  , indices := [0, 5]
  , total_sentence_count := 2 }

/-- A file that begins with an in-file schema declaration line. -/
def c2file : List String := ["# global.columns = A B\n", "1\tx\n"]

/-- A caller-supplied schema (covering the default token-annotation
fields, so construction passes validation). -/
def c2callerFields : List String := ["form", "lemma", "upos", "xpos"]

/-- A sentence block of six one-token lines carrying the relations metadata
value `2;3;5;5;CAUSE`. -/
def c4block : List String :=
  ["# relations = 2;3;5;5;CAUSE\n",
   "1\ta\n", "2\tb\n", "3\tc\n", "4\td\n", "5\te\n", "6\tf\n"]

/-- The six assembled tokens of `c4block`. -/
def c4toks : List SToken :=
  [plainTok "a", plainTok "b", plainTok "c", plainTok "d", plainTok "e", plainTok "f"]

/-- A file whose only block carries a malformed relations value (two fields
instead of five). -/
def c5file : List String := ["# relations = 1;2\n", "1\ta\n"]

/-- A token record whose misc mapping says `SpaceAfter=No`. -/
def c6rec : TokenRec := [("form", .str "x"), ("misc", .dict [("SpaceAfter", some "No")])]

/-- One block carrying a malformed relations value. -/
def c7blocks : List (List String) := [["# relations = 1;2\n", "1\ta\n"]]

/-- Two one-token blocks separated by one blank line, no trailing blank
line, no metadata. -/
def c8file : List String := ["1\tJohn\n", "\n", "1\tMary\n"]

/-- Whether a `misc` value is one the default registry can produce (absent,
null, or a mapping): the source calls `.get` on it, which would raise on the
string-valued misc a caller-replaced parser could produce. -/
def miscOKB (rec : TokenRec) : Bool :=
  match alookup "misc" rec with
  | some (.str _) => false
  | _ => true

/-! ### Helper lemmas about the scanner, the block structure and seeking -/

theorem isBlank_eq_false_of_trim_ne {l : String} (h : trimChars l.data ≠ []) :
    isBlank l = false := by
  simp [isBlank, h]

theorem scanAux_blank_cons (l : String) (ls : List String) (h : isBlank l = true)
    (pos tell : Nat) :
    scanIndicesAux (l :: ls) pos tell =
      pos :: scanIndicesAux ls (tell + strLen l) (tell + strLen l) := by
  simp [scanIndicesAux, h]

theorem scanAux_nonblank_cons (l : String) (ls : List String) (h : isBlank l = false)
    (pos tell : Nat) :
    scanIndicesAux (l :: ls) pos tell = scanIndicesAux ls pos (tell + strLen l) := by
  simp [scanIndicesAux, h]

theorem scanAux_append_run (run rest : List String) (h : ∀ l ∈ run, trimChars l.data ≠ []) :
    ∀ tell pos : Nat,
      scanIndicesAux (run ++ rest) pos tell = scanIndicesAux rest pos (tell + cumLen run) := by
  induction run with
  | nil => intro tell pos; simp [cumLen]
  | cons l run ih =>
      intro tell pos
      have hl : isBlank l = false := isBlank_eq_false_of_trim_ne (h l (by simp))
      rw [List.cons_append, scanAux_nonblank_cons l _ hl,
        ih (fun x hx => h x (by simp [hx]))]
      have : tell + strLen l + cumLen run = tell + cumLen (l :: run) := by
        simp [cumLen, List.map_cons]; omega
      rw [this]

theorem blockStartPos_zero (bs : List (List String)) : blockStartPos bs 0 = 0 := by
  simp [blockStartPos, blocksLen]

theorem blockStartPos_cons_succ (b : List String) (bs : List (List String)) (i : Nat) :
    blockStartPos (b :: bs) (i + 1) = cumLen b + 1 + blockStartPos bs i := by
  simp [blockStartPos, blocksLen, List.take_succ_cons]
  omega

theorem fileEndPos_cons (b : List String) (bs : List (List String)) :
    fileEndPos (b :: bs) = cumLen b + 1 + fileEndPos bs := by
  simp [fileEndPos, blocksLen]
  omega

theorem mkFileLines_cons (b : List String) (bs : List (List String)) (hbs : bs ≠ [])
    (t : Bool) : mkFileLines (b :: bs) t = b ++ "\n" :: mkFileLines bs t := by
  cases bs with
  | nil => exact absurd rfl hbs
  | cons c bs2 =>
      show (joinSep (b :: c :: bs2)) ++ _ = _
      rw [show joinSep (b :: c :: bs2) = b ++ "\n" :: joinSep (c :: bs2) from rfl]
      simp [mkFileLines]

theorem cons_map_range_aux {α : Type} (f g : Nat → α) (n : Nat) (x : α) (tl : List α)
    (h0 : f 0 = x) (hsucc : ∀ i, g i = f (i + 1)) :
    x :: (List.map g (List.range n) ++ tl) = List.map f (List.range (n + 1)) ++ tl := by
  rw [List.range_succ_eq_map]
  simp only [List.map_cons, List.map_map, List.cons_append, h0]
  congr 2
  apply List.map_congr_left
  intro i _
  simp only [Function.comp_apply]
  exact hsucc i

theorem scanAux_mkFileLines (bs : List (List String)) (t : Bool) (hg : GoodBlocks bs) :
    ∀ p : Nat,
      scanIndicesAux (mkFileLines bs t) p p =
        (List.range bs.length).map (fun i => p + blockStartPos bs i) ++
          (if t then [p + fileEndPos bs] else []) := by
  induction bs with
  | nil => exact absurd rfl hg.1
  | cons b bs2 ih =>
      intro p
      have hb : GoodBlock b := hg.2 b (by simp)
      cases bs2 with
      | nil =>
          have hrun : ∀ l ∈ b, trimChars l.data ≠ [] := hb.2
          cases t with
          | false =>
              show scanIndicesAux (b ++ []) p p = _
              rw [scanAux_append_run b [] hrun]
              simp [scanIndicesAux, blockStartPos_zero,
                show List.range 1 = [0] from by decide]
          | true =>
              show scanIndicesAux (b ++ ["\n"]) p p = _
              rw [scanAux_append_run b ["\n"] hrun]
              rw [scanAux_blank_cons "\n" [] (by decide)]
              simp [scanIndicesAux, blockStartPos_zero, fileEndPos, blocksLen, strLen,
                show List.range 1 = [0] from by decide, Nat.add_assoc]
      | cons b2 bs3 =>
          have hbs2 : (b2 :: bs3) ≠ [] := by simp
          have hg2 : GoodBlocks (b2 :: bs3) :=
            ⟨hbs2, fun x hx => hg.2 x (by simp [hx])⟩
          rw [mkFileLines_cons b (b2 :: bs3) hbs2 t,
            scanAux_append_run b _ hb.2, scanAux_blank_cons "\n" _ (by decide)]
          have hstr : strLen "\n" = 1 := by decide
          rw [hstr, ih hg2 (p + cumLen b + 1)]
          have hif : (if t = true then [p + cumLen b + 1 + fileEndPos (b2 :: bs3)] else [])
              = (if t = true then [p + fileEndPos (b :: b2 :: bs3)] else []) := by
            cases t with
            | false => rfl
            | true => simp [fileEndPos_cons]; omega
          rw [hif]
          exact cons_map_range_aux _ _ _ _ _ (by simp [blockStartPos_zero])
            (fun i => by rw [blockStartPos_cons_succ]; omega)

/-- The offset list a lazy dataset records for a canonical file: one offset
per block, at the block's start position, plus — exactly when the file ends
with a blank line — one further offset at the end-of-stream position. -/
theorem scanIndices_mkFileLines (bs : List (List String)) (t : Bool) (hg : GoodBlocks bs) :
    scanIndices (mkFileLines bs t) =
      (List.range bs.length).map (blockStartPos bs) ++
        (if t then [fileEndPos bs] else []) := by
  have h := scanAux_mkFileLines bs t hg 0
  simp only [scanIndices, h, Nat.zero_add]

theorem segmentsR_ne_nil (ls : List String) : segmentsR ls ≠ [] := by
  induction ls with
  | nil => simp [segmentsR]
  | cons l ls ih =>
      simp only [segmentsR]
      by_cases h : isBlank l = true
      · simp [h]
      · simp only [h]
        cases hs : segmentsR ls with
        | nil => simp
        | cons s ss => simp

theorem segmentsR_blank_cons (l : String) (ls : List String) (h : isBlank l = true) :
    segmentsR (l :: ls) = [] :: segmentsR ls := by
  simp [segmentsR, h]

theorem segmentsR_append_run (run : List String) (h : ∀ l ∈ run, trimChars l.data ≠ [])
    (rest : List String) (s : List String) (ss : List (List String))
    (hr : segmentsR rest = s :: ss) :
    segmentsR (run ++ rest) = (run ++ s) :: ss := by
  induction run with
  | nil => simpa using hr
  | cons l run ih =>
      have hl : isBlank l = false := isBlank_eq_false_of_trim_ne (h l (by simp))
      have ihr := ih (fun x hx => h x (by simp [hx]))
      simp only [List.cons_append, segmentsR, hl, Bool.false_eq_true, if_false,
        List.append_eq]
      rw [ihr]

/-- The record parser yields exactly the given blocks on a canonical file. -/
theorem blocksOf_mkFileLines (bs : List (List String)) (t : Bool) (hg : GoodBlocks bs) :
    blocksOf (mkFileLines bs t) = bs := by
  induction bs with
  | nil => exact absurd rfl hg.1
  | cons b bs2 ih =>
      have hb : GoodBlock b := hg.2 b (by simp)
      cases bs2 with
      | nil =>
          cases t with
          | false =>
              show blocksOf (b ++ []) = [b]
              unfold blocksOf
              rw [segmentsR_append_run b hb.2 [] [] [] rfl]
              simp [hb.1]
          | true =>
              show blocksOf (b ++ ["\n"]) = [b]
              unfold blocksOf
              rw [segmentsR_append_run b hb.2 ["\n"] [] [[]]
                (by rw [segmentsR_blank_cons _ _ (by decide)]; rfl)]
              simp [hb.1]
      | cons b2 bs3 =>
          have hbs2 : (b2 :: bs3) ≠ [] := by simp
          have hg2 : GoodBlocks (b2 :: bs3) :=
            ⟨hbs2, fun x hx => hg.2 x (by simp [hx])⟩
          rw [mkFileLines_cons b (b2 :: bs3) hbs2 t]
          obtain ⟨s, ss, hs⟩ : ∃ s ss, segmentsR (mkFileLines (b2 :: bs3) t) = s :: ss := by
            cases hseg : segmentsR (mkFileLines (b2 :: bs3) t) with
            | nil => exact absurd hseg (segmentsR_ne_nil _)
            | cons s ss => exact ⟨s, ss, rfl⟩
          unfold blocksOf
          rw [segmentsR_append_run b hb.2 ("\n" :: mkFileLines (b2 :: bs3) t) [] (s :: ss)
            (by rw [segmentsR_blank_cons _ _ (by decide), hs])]
          have hfilter : List.filter (fun b => !b.isEmpty) (s :: ss)
              = blocksOf (mkFileLines (b2 :: bs3) t) := by
            unfold blocksOf
            rw [hs]
          have hstep : List.filter (fun b => !b.isEmpty) ((b ++ []) :: s :: ss)
              = (b ++ []) :: List.filter (fun b => !b.isEmpty) (s :: ss) := by
            rw [List.filter_cons]
            simp [hb.1]
          rw [hstep, hfilter, ih hg2]
          simp

theorem seekLines_cons_ge (l : String) (ls : List String) (off : Nat)
    (h1 : 0 < off) (h2 : strLen l ≤ off) :
    seekLines (l :: ls) off = seekLines ls (off - strLen l) := by
  cases off with
  | zero => omega
  | succ m =>
      have heq : seekLines (l :: ls) (m + 1)
          = if m + 1 < strLen l then (⟨l.data.drop (m + 1)⟩ : String) :: ls
            else seekLines ls (m + 1 - strLen l) := rfl
      rw [heq, if_neg (by omega)]

theorem data_ne_nil_of_trim_ne {l : String} (h : trimChars l.data ≠ []) : l.data ≠ [] := by
  intro hc
  apply h
  simp [trimChars, hc]

theorem strLen_pos_of_data_ne {l : String} (h : l.data ≠ []) : 0 < strLen l := by
  have hne : l.data.length ≠ 0 := fun hc => h (List.length_eq_zero.mp hc)
  exact Nat.pos_of_ne_zero hne

theorem seekLines_append_add (xs ys : List String) (k : Nat)
    (h : ∀ l ∈ xs, l.data ≠ []) :
    seekLines (xs ++ ys) (cumLen xs + k) = seekLines ys k := by
  induction xs with
  | nil => simp [cumLen]
  | cons x xs ih =>
      have hx : 0 < strLen x := strLen_pos_of_data_ne (h x (by simp))
      have hlen : cumLen (x :: xs) = strLen x + cumLen xs := by
        simp [cumLen]
      rw [List.cons_append, hlen,
        seekLines_cons_ge x (xs ++ ys) (strLen x + cumLen xs + k) (by omega) (by omega)]
      have : strLen x + cumLen xs + k - strLen x = cumLen xs + k := by omega
      rw [this, ih (fun y hy => h y (by simp [hy]))]

/-- Seeking a canonical file to the start position of block `i` leaves
exactly the canonical file of the remaining blocks. -/
theorem seekLines_mkFileLines (bs : List (List String)) (t : Bool) (i : Nat)
    (hg : GoodBlocks bs) (hi : i < bs.length) :
    seekLines (mkFileLines bs t) (blockStartPos bs i) = mkFileLines (bs.drop i) t := by
  induction i generalizing bs with
  | zero =>
      rw [blockStartPos_zero, List.drop_zero]
      cases hfl : mkFileLines bs t with
      | nil => rfl
      | cons a as => rfl
  | succ i ih =>
      cases bs with
      | nil => simp at hi
      | cons b bs2 =>
          have hbs2 : bs2 ≠ [] := by
            intro hc
            subst hc
            simp at hi
          have hg2 : GoodBlocks bs2 :=
            ⟨hbs2, fun x hx => hg.2 x (by simp [hx])⟩
          have hb : GoodBlock b := hg.2 b (by simp)
          rw [mkFileLines_cons b bs2 hbs2 t, blockStartPos_cons_succ]
          have hsep : (b ++ "\n" :: mkFileLines bs2 t)
              = (b ++ ["\n"]) ++ mkFileLines bs2 t := by simp
          have hcl : cumLen (b ++ ["\n"]) = cumLen b + 1 := by
            simp [cumLen, strLen]
          have hrun : ∀ l ∈ b ++ ["\n"], l.data ≠ [] := by
            intro l hl
            rcases List.mem_append.mp hl with hmem | hmem
            · exact data_ne_nil_of_trim_ne (hb.2 l hmem)
            · simp at hmem
              subst hmem
              decide
          rw [hsep, show cumLen b + 1 + blockStartPos bs2 i
              = cumLen (b ++ ["\n"]) + blockStartPos bs2 i from by rw [hcl],
            seekLines_append_add _ _ _ hrun,
            ih bs2 hg2 (by simpa using hi)]
          rfl

theorem exceptMapList_ok {ε α β : Type} (f : α → Except ε β) (l : List α) (r : List β)
    (h : exceptMapList f l = .ok r) :
    r.length = l.length ∧
      ∀ (i : Nat) (x : α), l[i]? = some x → ∃ y, f x = .ok y ∧ r[i]? = some y := by
  induction l generalizing r with
  | nil =>
      simp only [exceptMapList, Except.ok.injEq] at h
      subst h
      exact ⟨rfl, by intro i x hx; simp at hx⟩
  | cons a l ih =>
      simp only [exceptMapList] at h
      cases hfa : f a with
      | error e => rw [hfa] at h; cases h
      | ok y =>
          rw [hfa] at h
          cases hrec : exceptMapList f l with
          | error e => rw [hrec] at h; cases h
          | ok ys =>
              rw [hrec] at h
              simp only [Except.ok.injEq] at h
              subst h
              obtain ⟨hlen, hidx⟩ := ih ys hrec
              refine ⟨by simp [hlen], ?_⟩
              intro i x hx
              cases i with
              | zero =>
                  simp at hx
                  subst hx
                  exact ⟨y, hfa, by simp⟩
              | succ j =>
                  simp only [List.getElem?_cons_succ] at hx ⊢
                  exact hidx j x hx

/-- If the first failing element of the list is at position `i`, the
effectful map fails with exactly that element's error. -/
theorem exceptMapList_error {ε α β : Type} (f : α → Except ε β) (l : List α)
    (i : Nat) (x : α) (e : ε)
    (hx : l[i]? = some x) (hfx : f x = .error e)
    (hok : ∀ j y, j < i → l[j]? = some y → ∃ z, f y = .ok z) :
    exceptMapList f l = .error e := by
  induction i generalizing l with
  | zero =>
      cases l with
      | nil => simp at hx
      | cons a l2 =>
          simp at hx
          subst hx
          simp only [exceptMapList, hfx]
  | succ i ih =>
      cases l with
      | nil => simp at hx
      | cons a l2 =>
          obtain ⟨z, hz⟩ := hok 0 a (by omega) (by simp)
          simp only [exceptMapList, hz]
          rw [ih l2 (by simpa using hx)
            (fun j y hj hy => hok (j + 1) y (by omega) (by simpa using hy))]

theorem datasetInit_mem_inv (lines : List String) (cf ct : Option (List String))
    (dsm : CoNLLUDataset) (h : datasetInit lines true cf ct = .ok dsm) :
    subsetB (pyOrList ct DEFAULT_TOKEN_ANNOTATION_FIELDS) (resolveFields cf lines) = true ∧
    ∃ sents,
      parseSentences (resolveFields cf lines) (pyOrList ct DEFAULT_TOKEN_ANNOTATION_FIELDS) lines
        = .ok sents ∧
      dsm = { fields := resolveFields cf lines
            , token_annotation_fields := pyOrList ct DEFAULT_TOKEN_ANNOTATION_FIELDS
            , in_memory := true, sentences := sents, indices := []
            , total_sentence_count := sents.length } := by
  simp only [datasetInit, eq_self_iff_true, if_true] at h
  split at h
  · rename_i hsub
    split at h
    · cases h
    · rename_i sents hsents
      exact ⟨hsub, sents, hsents, (Except.ok.inj h).symm⟩
  · cases h

theorem datasetInit_lazy_inv (lines : List String) (cf ct : Option (List String))
    (dsl : CoNLLUDataset) (h : datasetInit lines false cf ct = .ok dsl) :
    subsetB (pyOrList ct DEFAULT_TOKEN_ANNOTATION_FIELDS) (resolveFields cf lines) = true ∧
      dsl = { fields := resolveFields cf lines
            , token_annotation_fields := pyOrList ct DEFAULT_TOKEN_ANNOTATION_FIELDS
            , in_memory := false, sentences := [], indices := scanIndices lines
            , total_sentence_count := (scanIndices lines).length } := by
  simp only [datasetInit, Bool.false_eq_true, if_false] at h
  split at h
  · rename_i hsub
    exact ⟨hsub, (Except.ok.inj h).symm⟩
  · cases h

theorem datasetInit_lazy_ok (lines : List String) (cf ct : Option (List String))
    (hsub : subsetB (pyOrList ct DEFAULT_TOKEN_ANNOTATION_FIELDS) (resolveFields cf lines)
      = true) :
    datasetInit lines false cf ct
      = .ok { fields := resolveFields cf lines
            , token_annotation_fields := pyOrList ct DEFAULT_TOKEN_ANNOTATION_FIELDS
            , in_memory := false, sentences := [], indices := scanIndices lines
            , total_sentence_count := (scanIndices lines).length } := by
  simp only [datasetInit, hsub, if_true, Bool.false_eq_true, if_false]

theorem GoodBlocks_drop (bs : List (List String)) (i : Nat) (hg : GoodBlocks bs)
    (hi : i < bs.length) : GoodBlocks (bs.drop i) := by
  constructor
  · intro hc
    have := List.drop_eq_nil_iff.mp hc
    omega
  · intro b hb
    exact hg.2 b (List.drop_subset i bs hb)

theorem subsetB_eq_true_iff (xs ys : List String) :
    subsetB xs ys = true ↔ ∀ x ∈ xs, x ∈ ys := by
  simp only [subsetB, List.all_eq_true, List.any_eq_true, decide_eq_true_eq]
  constructor
  · intro h x hx
    obtain ⟨y, hy, hyx⟩ := h x hx
    rwa [hyx] at hy
  · intro h x hx
    exact ⟨x, h x hx, rfl⟩

theorem scanAux_ne_nil (ls : List String) :
    ∀ pos tell : Nat, scanIndicesAux ls pos tell ≠ [] := by
  induction ls with
  | nil => intro pos tell; simp [scanIndicesAux]
  | cons l ls ih =>
      intro pos tell
      by_cases hb : isBlank l = true
      · rw [scanAux_blank_cons l ls hb]
        simp
      · rw [scanAux_nonblank_cons l ls (by simpa using hb)]
        exact ih _ _

/-! ### Claim theorems -/

/-- C1: over one and the same file in the documented input format (sentence
blocks separated by single blank lines, with or without a trailing blank
line), the same caller-supplied schema and token-annotation fields, the
sentence an in-memory dataset yields at any index `i` valid for both
datasets and the sentence a lazy dataset re-parses at `i` have identical
token sequences: the same surface forms, the same per-token labels, and the
same whitespace-after flags. -/
theorem claim1_access_mode_equivalence
    (bs : List (List String)) (t : Bool) (cf ct : Option (List String)) (i : Nat)
    (dsm dsl : CoNLLUDataset)
    (hg : GoodBlocks bs) (hi : i < bs.length)
    (hm : datasetInit (mkFileLines bs t) true cf ct = .ok dsm)
    (hl : datasetInit (mkFileLines bs t) false cf ct = .ok dsl) :
    ∃ s s2 : PSentence,
      pyGetitem dsm (mkFileLines bs t) i = .ok s ∧
      pyGetitem dsl (mkFileLines bs t) i = .ok s2 ∧
      s2.tokens.map SToken.text = s.tokens.map SToken.text ∧
      s2.tokens.map SToken.labels = s.tokens.map SToken.labels ∧
      s2.tokens.map SToken.whitespace_after = s.tokens.map SToken.whitespace_after := by
  obtain ⟨hsubm, sents, hps, hdsm⟩ := datasetInit_mem_inv _ _ _ _ hm
  obtain ⟨hsub, hdsl⟩ := datasetInit_lazy_inv _ _ _ _ hl
  set F := resolveFields cf (mkFileLines bs t) with hF
  set T := pyOrList ct DEFAULT_TOKEN_ANNOTATION_FIELDS with hT
  have hblocks : blocksOf (mkFileLines bs t) = bs := blocksOf_mkFileLines bs t hg
  unfold parseSentences at hps
  rw [hblocks] at hps
  cases hmap : exceptMapList (parseBlock F T) bs with
  | error e => rw [hmap] at hps; cases hps
  | ok tls =>
      rw [hmap] at hps
      have hsents : sents = tls.map (token_list_to_sentence T) := (Except.ok.inj hps).symm
      obtain ⟨hlen, hspec⟩ := exceptMapList_ok _ _ _ hmap
      have hbsi : bs[i]? = some bs[i] := List.getElem?_eq_getElem hi
      obtain ⟨tl, htl_ok, htl_idx⟩ := hspec i bs[i] hbsi
      have hsget : sents[i]? = some (token_list_to_sentence T tl) := by
        rw [hsents, List.getElem?_map, htl_idx]
        rfl
      have hmemget : pyGetitem dsm (mkFileLines bs t) i
          = .ok (token_list_to_sentence T tl) := by
        rw [hdsm]
        simp [pyGetitem, hsget]
      have hidx : (scanIndices (mkFileLines bs t))[i]? = some (blockStartPos bs i) := by
        rw [scanIndices_mkFileLines bs t hg,
          List.getElem?_append_left (by simpa using hi),
          List.getElem?_map, List.getElem?_range hi]
        rfl
      have hseek := seekLines_mkFileLines bs t i hg hi
      have hdropblocks : blocksOf (mkFileLines (bs.drop i) t) = bs.drop i :=
        blocksOf_mkFileLines _ t (GoodBlocks_drop bs i hg hi)
      have hdrop : bs.drop i = bs[i] :: bs.drop (i + 1) := List.drop_eq_getElem_cons hi
      have hlazyget : pyGetitem dsl (mkFileLines bs t) i
          = .ok (token_list_to_sentence T tl) := by
        rw [hdsl]
        simp only [pyGetitem, Bool.false_eq_true, if_false, hidx, hseek, hdropblocks]
        rw [hdrop]
        simp [htl_ok]
      exact ⟨token_list_to_sentence T tl, token_list_to_sentence T tl,
        hmemget, hlazyget, rfl, rfl, rfl⟩

/-- Witness for C1: on the concrete two-block file `1<TAB>a`, blank line,
`2<TAB>b` (no trailing blank line), index 1 yields the same token sequence
from the in-memory and the lazy dataset. -/
theorem claim1_access_mode_equivalence_witness :
    ∃ s s2 : PSentence,
      pyGetitem c1dsm (mkFileLines c1blocks false) 1 = .ok s ∧
      pyGetitem c1dsl (mkFileLines c1blocks false) 1 = .ok s2 ∧
      s2.tokens.map SToken.text = s.tokens.map SToken.text ∧
      s2.tokens.map SToken.labels = s.tokens.map SToken.labels ∧
      s2.tokens.map SToken.whitespace_after = s.tokens.map SToken.whitespace_after :=
  claim1_access_mode_equivalence c1blocks false none none 1 c1dsm c1dsl
    (by decide) (by decide) (by decide) (by decide)

/-- C2 counterexample: for a file that begins with an in-file schema
declaration (`# global.columns = A B`) AND a caller-supplied schema, the
constructed dataset's active schema is the caller's list, not the declared
one — the in-file declaration does not win, contradicting the claim. -/
theorem claim2_counterexample :
    parse_conllu_plus_fields c2file = some ["A", "B"] ∧
    (datasetInit c2file true (some c2callerFields) none).map CoNLLUDataset.fields
      = .ok c2callerFields ∧
    c2callerFields ≠ ["A", "B"] := by decide

/-- C2 (amended): the precedence the code implements is the reverse of the
claim for the first two sources: a nonempty caller-supplied schema is always
used, even when an in-file declaration is present; the in-file declaration
is consulted only when the caller supplied no schema; and the ten-column
default applies when neither source yields a schema (also when the caller
supplies an empty list, in which case the file is not consulted at all). -/
theorem claim2_schema_precedence (lines : List String) (fs g : List String) :
    (fs ≠ [] → resolveFields (some fs) lines = fs) ∧
    (parse_conllu_plus_fields lines = some g → g ≠ [] →
      resolveFields none lines = g) ∧
    (parse_conllu_plus_fields lines = none → resolveFields none lines = DEFAULT_FIELDS) ∧
    resolveFields (some []) lines = DEFAULT_FIELDS := by
  refine ⟨?_, ?_, ?_, rfl⟩
  · intro hfs
    cases fs with
    | nil => exact absurd rfl hfs
    | cons a l => rfl
  · intro hp hgne
    show pyOrList (parse_conllu_plus_fields lines) DEFAULT_FIELDS = g
    rw [hp]
    cases g with
    | nil => exact absurd rfl hgne
    | cons a l => rfl
  · intro hp
    show pyOrList (parse_conllu_plus_fields lines) DEFAULT_FIELDS = DEFAULT_FIELDS
    rw [hp]
    rfl

/-- Witness for C2 (amended): on the concrete declaration-bearing file, a
caller schema wins and, absent one, the declaration is used. -/
theorem claim2_schema_precedence_witness :
    resolveFields (some c2callerFields) c2file = c2callerFields ∧
    resolveFields none c2file = ["A", "B"] :=
  ⟨(claim2_schema_precedence c2file c2callerFields ["A", "B"]).1 (by decide),
   (claim2_schema_precedence c2file c2callerFields ["A", "B"]).2.1 (by decide) (by decide)⟩

/-- C3 counterexample: the two-block file `1<TAB>a`, blank, `2<TAB>b`, blank
DOES end with a trailing blank line, yet the lazy count is 3 while the
in-memory count is 2 — the claim predicted agreement exactly for such
files. -/
theorem claim3_counterexample :
    (mkFileLines c1blocks true).getLast? = some "\n" ∧
    (datasetInit (mkFileLines c1blocks true) true none none).map datasetLen = .ok 2 ∧
    (datasetInit (mkFileLines c1blocks true) false none none).map datasetLen = .ok 3 := by
  decide

/-- C3 (amended): for a canonical file with N blank-line-delimited non-empty
blocks, the in-memory length is N whenever in-memory construction succeeds;
lazy construction always succeeds, and its count is N when the file does
not end with a blank line and N+1 when it does — the opposite direction of
the overcount stated by the claim. -/
theorem claim3_counts (bs : List (List String)) (t : Bool) (dsm : CoNLLUDataset)
    (hg : GoodBlocks bs)
    (hm : datasetInit (mkFileLines bs t) true none none = .ok dsm) :
    datasetLen dsm = bs.length ∧
    ∃ dsl, datasetInit (mkFileLines bs t) false none none = .ok dsl ∧
      datasetLen dsl = bs.length + (if t then 1 else 0) := by
  obtain ⟨hsub, sents, hps, hdsm⟩ := datasetInit_mem_inv _ _ _ _ hm
  constructor
  · unfold parseSentences at hps
    rw [blocksOf_mkFileLines bs t hg] at hps
    cases hmap : exceptMapList
        (parseBlock (resolveFields none (mkFileLines bs t))
          (pyOrList none DEFAULT_TOKEN_ANNOTATION_FIELDS)) bs with
    | error e => rw [hmap] at hps; cases hps
    | ok tls =>
        rw [hmap] at hps
        have hsents : sents = tls.map (token_list_to_sentence _) := (Except.ok.inj hps).symm
        obtain ⟨hlen, _⟩ := exceptMapList_ok _ _ _ hmap
        rw [hdsm]
        simp [datasetLen, hsents, hlen]
  · refine ⟨_, datasetInit_lazy_ok (mkFileLines bs t) none none hsub, ?_⟩
    simp only [datasetLen]
    rw [scanIndices_mkFileLines bs t hg]
    cases t with
    | false => simp
    | true => simp

/-- Witness for C3 (amended): the concrete trailing-blank two-block file has
in-memory length 2 and lazy count 3. -/
theorem claim3_counts_witness :
    datasetLen c1dsm = c1blocks.length ∧
    ∃ dsl, datasetInit (mkFileLines c1blocks true) false none none = .ok dsl ∧
      datasetLen dsl = c1blocks.length + (if true then 1 else 0) :=
  claim3_counts c1blocks true c1dsm (by decide) (by decide)

/-- C4: the relations value `2;3;5;5;CAUSE` parses to the tuple
(2, 3, 5, 5, "CAUSE"), and the sentence assembled from a six-token block
carrying it gets one relation label whose head span is the Python slice
`tokens[1:3]` (0-based half-open, i.e. tokens b and c) and whose tail span
is `tokens[4:5]` (token e). -/
theorem claim4_relation_roundtrip :
    parse_relation_tuple_list "relations" (some "2;3;5;5;CAUSE")
      = .ok (some ("relations",
          [{ head_start := 2, head_end := 3, tail_start := 5, tail_end := 5
           , label := "CAUSE" }])) ∧
    (parseBlock DEFAULT_FIELDS DEFAULT_TOKEN_ANNOTATION_FIELDS c4block).map
        (token_list_to_sentence DEFAULT_TOKEN_ANNOTATION_FIELDS)
      = .ok { tokens := c4toks
            , labels := []
            , relationLabels := [{ value := "CAUSE"
                                 , head := pySlice c4toks 1 3
                                 , tail := pySlice c4toks 4 5 }] } ∧
    pySlice c4toks 1 3 = [plainTok "b", plainTok "c"] ∧
    pySlice c4toks 4 5 = [plainTok "e"] := by decide

/-- C5: whenever some caller-declared token-annotation field is absent from
the resolved schema, construction fails with the configuration error
carrying both lists — for every file body (even an unparseable one) and in
both access modes, so the failure precedes any sentence parsing. -/
theorem claim5_config_error (lines : List String) (mode : Bool)
    (cf ct : Option (List String)) (x : String)
    (hx : x ∈ pyOrList ct DEFAULT_TOKEN_ANNOTATION_FIELDS)
    (hnot : x ∉ resolveFields cf lines) :
    datasetInit lines mode cf ct
      = .error (.config (pyOrList ct DEFAULT_TOKEN_ANNOTATION_FIELDS)
          (resolveFields cf lines)) := by
  have hbad : subsetB (pyOrList ct DEFAULT_TOKEN_ANNOTATION_FIELDS)
      (resolveFields cf lines) = false := by
    rw [Bool.eq_false_iff]
    intro htrue
    exact hnot ((subsetB_eq_true_iff _ _).mp htrue x hx)
  simp only [datasetInit, hbad, Bool.false_eq_true, if_false]

/-- Witness for C5: declaring the token-annotation field "bogus" over the
default schema fails with the configuration error even though the file body
carries a malformed relations value that would fail parsing — the
validation error wins because it happens first. -/
theorem claim5_config_error_witness :
    datasetInit c5file true none (some ["bogus"])
      = .error (.config (pyOrList (some ["bogus"]) DEFAULT_TOKEN_ANNOTATION_FIELDS)
          (resolveFields none c5file)) :=
  claim5_config_error c5file true none (some ["bogus"]) "bogus" (by decide) (by decide)

/-- C6: for every token record whose misc value is one the default registry
can produce, the assembled token's whitespace-after flag is false exactly
when the misc mapping is present, non-null, and yields the value "No" for
the key "SpaceAfter" — in every other case (no misc entry, null misc, no
SpaceAfter key, or any other SpaceAfter value including "Yes") the flag
keeps its default true. -/
theorem claim6_space_after (taf : List String) (rec : TokenRec)
    (hok : miscOKB rec = true) :
    ((assembleToken taf rec).whitespace_after = false ↔
      ∃ ps, alookup "misc" rec = some (.dict ps) ∧
        (alookup "SpaceAfter" ps).getD none = some "No") := by
  unfold assembleToken
  cases hm : alookup "misc" rec with
  | none => simp [hm]
  | some v =>
      cases v with
      | null => simp [hm]
      | str s => simp [miscOKB, hm] at hok
      | dict ps =>
          simp only [hm]
          by_cases hsa : (alookup "SpaceAfter" ps).getD none = some "No"
          · simp [hsa]
          · simp [hsa]

/-- Witness for C6: a record whose misc mapping carries `SpaceAfter=No` gets
whitespace-after = false. -/
theorem claim6_space_after_witness :
    (assembleToken DEFAULT_TOKEN_ANNOTATION_FIELDS c6rec).whitespace_after = false :=
  (claim6_space_after DEFAULT_TOKEN_ANNOTATION_FIELDS c6rec (by decide)).mpr
    ⟨[("SpaceAfter", some "No")], by decide, by decide⟩

/-- C7 counterexample: a tuple with the wrong field count fails with the
unpacking error, whose Python message (modelled by `errRawValue`) carries
only the expected and actual counts and NOT the offending raw value; only a
non-integer index yields an error carrying the raw literal.  The claim's
"a Parse Error that identifies the offending raw value" therefore fails for
the wrong-field-count case. -/
theorem claim7_counterexample :
    parse_relation_tuple_list "relations" (some "1;2;3")
      = .error (.unpackMismatch 5 3) ∧
    errRawValue (.unpackMismatch 5 3) = none ∧
    parse_relation_tuple_list "relations" (some "a;2;3;4;L")
      = .error (.intParseFail "a") ∧
    errRawValue (.intParseFail "a") = some "a" := by decide

/-- C8 counterexample: on the two-block default-schema file with an unset
token-annotation parameter, every token carries the three default
token-annotation labels — "no labels are attached to any token" is false,
and the falsy empty token-annotation value also falls back to the defaults,
so no configuration yields label-free tokens. -/
theorem claim8_counterexample :
    (datasetInit c8file true none none).map
        (fun ds => ds.sentences.map (fun s => s.tokens.map SToken.labels))
      = .ok [[[("lemma", "None"), ("upos", "None"), ("xpos", "None")]],
             [[("lemma", "None"), ("upos", "None"), ("xpos", "None")]]] ∧
    pyOrList (some []) DEFAULT_TOKEN_ANNOTATION_FIELDS = DEFAULT_TOKEN_ANNOTATION_FIELDS ∧
    [("lemma", "None"), ("upos", "None"), ("xpos", "None")] ≠ ([] : List (String × String))
    := by decide

/-- C8 (amended): the two-block file without trailing blank line yields
exactly 2 sentences; each token's text is its form value; no sentence-level
labels and no relation labels are attached; each token carries exactly the
three default token-annotation labels with stringified null values (the
default set applies because an unset or empty token-annotation parameter
falls back to it). -/
theorem claim8_two_block_scenario :
    datasetInit c8file true none none
      = .ok { fields := DEFAULT_FIELDS
            , token_annotation_fields := DEFAULT_TOKEN_ANNOTATION_FIELDS
            , in_memory := true
            , sentences := [plainSent "John", plainSent "Mary"]
            , indices := []
            , total_sentence_count := 2 } := by decide

/-- C7 (amended): when block i of a canonical file fails to parse (a
malformed relations value: wrong field count or non-integer index) and the
blocks before it parse, in-memory construction fails with that parse error,
while lazy construction succeeds and the same parse error surfaces at the
access of element i (and only at accesses that re-parse that block). -/
theorem claim7_malformed_relations (bs : List (List String)) (t : Bool) (i : Nat)
    (e : RelParseErr)
    (hg : GoodBlocks bs) (hi : i < bs.length)
    (herr : parseBlock (resolveFields none (mkFileLines bs t))
        (pyOrList none DEFAULT_TOKEN_ANNOTATION_FIELDS) bs[i] = .error e)
    (hok : ∀ j y, j < i → bs[j]? = some y →
      ∃ tl, parseBlock (resolveFields none (mkFileLines bs t))
          (pyOrList none DEFAULT_TOKEN_ANNOTATION_FIELDS) y = .ok tl)
    (hsub : subsetB (pyOrList none DEFAULT_TOKEN_ANNOTATION_FIELDS)
        (resolveFields none (mkFileLines bs t)) = true) :
    datasetInit (mkFileLines bs t) true none none = .error (.parse e) ∧
    ∃ dsl, datasetInit (mkFileLines bs t) false none none = .ok dsl ∧
      pyGetitem dsl (mkFileLines bs t) i = .error (.parse e) := by
  set F := resolveFields none (mkFileLines bs t) with hF
  set T := pyOrList none DEFAULT_TOKEN_ANNOTATION_FIELDS with hT
  have hmap : exceptMapList (parseBlock F T) bs = .error e :=
    exceptMapList_error _ bs i bs[i] e (List.getElem?_eq_getElem hi) herr hok
  have hps : parseSentences F T (mkFileLines bs t) = .error e := by
    unfold parseSentences
    rw [blocksOf_mkFileLines bs t hg, hmap]
  constructor
  · simp only [datasetInit, hsub, if_true, eq_self_iff_true]
    rw [hps]
  · refine ⟨_, datasetInit_lazy_ok (mkFileLines bs t) none none hsub, ?_⟩
    have hidx : (scanIndices (mkFileLines bs t))[i]? = some (blockStartPos bs i) := by
      rw [scanIndices_mkFileLines bs t hg,
        List.getElem?_append_left (by simpa using hi),
        List.getElem?_map, List.getElem?_range hi]
      rfl
    have hseek := seekLines_mkFileLines bs t i hg hi
    have hdropblocks : blocksOf (mkFileLines (bs.drop i) t) = bs.drop i :=
      blocksOf_mkFileLines _ t (GoodBlocks_drop bs i hg hi)
    have hdrop : bs.drop i = bs[i] :: bs.drop (i + 1) := List.drop_eq_getElem_cons hi
    simp only [pyGetitem, Bool.false_eq_true, if_false, hidx, hseek, hdropblocks]
    rw [hdrop]
    simp [herr]

/-- Witness for C7 (amended): the file whose single block carries the
malformed value `1;2` fails in-memory construction with the unpack error,
while lazy construction succeeds and access of element 0 fails with the
same error. -/
theorem claim7_malformed_relations_witness :
    datasetInit (mkFileLines c7blocks false) true none none
      = .error (.parse (.unpackMismatch 5 2)) ∧
    ∃ dsl, datasetInit (mkFileLines c7blocks false) false none none = .ok dsl ∧
      pyGetitem dsl (mkFileLines c7blocks false) 0 = .error (.parse (.unpackMismatch 5 2)) :=
  claim7_malformed_relations c7blocks false 0 (.unpackMismatch 5 2)
    (by decide) (by decide) (by decide)
    (fun j y hj _ => absurd hj (by omega)) (by decide)

/-- C9 counterexample: for the two-block file without a trailing blank line
the recorded offsets are [0, 5]: the final appended offset is 5, the
position after the last blank line (the start of the last block), while the
end-of-stream position is 9 — so the final offset does NOT equal the
position at end-of-stream; moreover index 1 is a valid element access, it
dereferences that final offset and parses block b from it, so the final
offset IS used for parsing. -/
theorem claim9_counterexample :
    scanIndices (mkFileLines c1blocks false) = [0, 5] ∧
    cumLen (mkFileLines c1blocks false) = 9 ∧
    (5 : Nat) ≠ 9 ∧
    datasetInit (mkFileLines c1blocks false) false none none = .ok c1dsl ∧
    (pyGetitem c1dsl (mkFileLines c1blocks false) 1).map
        (fun s => s.tokens.map SToken.text) = .ok ["b"] := by decide

/-- C9 (amended): for canonical files the recorded offsets satisfy:
offset[0] = 0; offset[i] is the position immediately after the blank line
terminating block i-1 (the start position of block i); and the final
appended offset is the position after the LAST blank line — it equals the
end-of-stream position exactly when the file ends with a blank line, and it
is the offset the last valid lazy index dereferences. -/
theorem claim9_offsets (bs : List (List String)) (t : Bool) (hg : GoodBlocks bs) :
    scanIndices (mkFileLines bs t)
      = (List.range bs.length).map (blockStartPos bs) ++
        (if t then [fileEndPos bs] else []) ∧
    (scanIndices (mkFileLines bs t)).head? = some 0 ∧
    (scanIndices (mkFileLines bs t)).getLast?
      = some (if t then fileEndPos bs else blockStartPos bs (bs.length - 1)) := by
  have hformula := scanIndices_mkFileLines bs t hg
  refine ⟨hformula, ?_, ?_⟩
  · rw [hformula]
    cases bs with
    | nil => exact absurd rfl hg.1
    | cons b bs2 =>
        rw [show (b :: bs2).length = bs2.length + 1 from rfl, List.range_succ_eq_map]
        simp [blockStartPos_zero]
  · rw [hformula]
    cases t with
    | true => simp
    | false =>
        simp only [Bool.false_eq_true, if_false, List.append_nil]
        have hlen : 0 < bs.length := by
          cases bs with
          | nil => exact absurd rfl hg.1
          | cons b bs2 => simp
        rw [List.getLast?_eq_getElem?]
        rw [List.length_map, List.length_range, List.getElem?_map,
          List.getElem?_range (by omega)]
        rfl

/-- Witness for C9 (amended): the offset characterization at the concrete
two-block file without trailing blank line. -/
theorem claim9_offsets_witness :
    scanIndices (mkFileLines c1blocks false)
      = (List.range c1blocks.length).map (blockStartPos c1blocks) ++
        (if false then [fileEndPos c1blocks] else []) ∧
    (scanIndices (mkFileLines c1blocks false)).head? = some 0 ∧
    (scanIndices (mkFileLines c1blocks false)).getLast?
      = some (if false then fileEndPos c1blocks
              else blockStartPos c1blocks (c1blocks.length - 1)) :=
  claim9_offsets c1blocks false (by decide)

/-- C10: a lazy dataset always reports length at least 1 (one trailing
offset is appended unconditionally after the scan loop); on the empty file
the lazy dataset reports length 1 while the in-memory dataset reports 0, so
the two access strategies diverge at this edge case. -/
theorem claim10_empty_file_divergence :
    (∀ (lines : List String) (cf ct : Option (List String)) (ds : CoNLLUDataset),
      datasetInit lines false cf ct = .ok ds → 1 ≤ datasetLen ds) ∧
    (datasetInit [] false none none).map datasetLen = .ok 1 ∧
    (datasetInit [] true none none).map datasetLen = .ok 0 := by
  refine ⟨?_, by decide, by decide⟩
  intro lines cf ct ds h
  obtain ⟨-, hds⟩ := datasetInit_lazy_inv _ _ _ _ h
  rw [hds]
  simp only [datasetLen]
  have := scanAux_ne_nil lines 0 0
  have hpos : 0 < (scanIndices lines).length := List.length_pos.mpr this
  omega

/-- Witness for C10: the general lower bound applied to the concrete empty
file, whose lazy dataset records the single offset 0. -/
theorem claim10_empty_file_divergence_witness :
    1 ≤ datasetLen
        { fields := DEFAULT_FIELDS
        , token_annotation_fields := DEFAULT_TOKEN_ANNOTATION_FIELDS
        , in_memory := false, sentences := [], indices := [0]
        , total_sentence_count := 1 } :=
  claim10_empty_file_divergence.1 [] none none _ (by decide)

end Conllu
